import Mathlib

/-!
Verification of the block_non_au_ips repository.

Part 1 embeds the APNIC feed parser of ip_data_fetcher.py
(APNICFetcher.count_to_cidr and APNICFetcher.parse_data) as executable
Lean functions over character lists, so that every definition evaluates
by kernel reduction.

Part 2 embeds the iptables reconciler of iptables_manager.py
(IPTablesManager.create_whitelist_chain, add_whitelist_rules,
apply_firewall_rules, remove_firewall_rules) as a command-issuing
program over an abstract firewall backend.
-/

/-! ## Python string primitives, modelled structurally -/

/-- Splitting a character list at every occurrence of a separator
character, keeping empty segments: the behaviour of the Python
String.split with an explicit one-character separator. -/
def splitOnChar (c : Char) : List Char → List (List Char)
  | [] => [[]]
  | x :: xs =>
    let r := splitOnChar c xs
    if x = c then [] :: r
    else
      match r with
      | [] => [[x]]
      | g :: gs => (x :: g) :: gs

/-- Test whether the string starts with the given literal, as Python
str.startswith does. -/
def pyStartsWith (s pre : String) : Bool :=
  s.toList.take pre.toList.length == pre.toList

/-- Python "not line.strip()": the line is empty or all whitespace. -/
def pyIsBlank (s : String) : Bool :=
  s.toList.all Char.isWhitespace

/-- Python str.strip() on a character list. -/
def pyTrim (cs : List Char) : List Char :=
  ((cs.dropWhile Char.isWhitespace).reverse.dropWhile Char.isWhitespace).reverse

/-- Value of a non-empty all-digit character list, otherwise none. -/
def digitsToNat? (cs : List Char) : Option Nat :=
  if cs ≠ [] ∧ cs.all Char.isDigit then
    some (cs.foldl (fun n c => 10 * n + (c.toNat - 48)) 0)
  else none

/-- Python int(value) on a string: optional surrounding whitespace, an
optional sign, then decimal digits; anything else raises ValueError,
modelled as none. -/
def pyInt? (cs : List Char) : Option Int :=
  match pyTrim cs with
  | '-' :: rest => (digitsToNat? rest).map (fun n => -(n : Int))
  | '+' :: rest => (digitsToNat? rest).map (fun n => (n : Int))
  | t => (digitsToNat? t).map (fun n => (n : Int))

/-- Python data.splitlines(), for newline-delimited text. -/
def pyLines (data : String) : List String :=
  (splitOnChar '\n' data.toList).map List.asString

/-! ## floor of the base-2 logarithm

Python computes int(math.log2(count)); for the integral counts of the
feed this is the floor of the base-2 logarithm, modelled here by a
fuelled structural recursion so that it evaluates by kernel reduction. -/

/-- Fuelled floor of log2: with fuel at least log2 of the argument the
result is exact. -/
def log2Fuel : Nat → Nat → Nat
  | 0, _ => 0
  | f + 1, n => if 2 ≤ n then log2Fuel f (n / 2) + 1 else 0

/-- Floor of the base-2 logarithm of a natural number (0 for 0 and 1).
The fuel n always suffices because log2 n is at most n. -/
def floorLog2 (n : Nat) : Nat := log2Fuel n n

/-! ## APNICFetcher.count_to_cidr -/

/-- Translation of APNICFetcher.count_to_cidr: reject non-positive
counts, derive 32 - floor(log2 count), reject a result outside 0..32. -/
def count_to_cidr (count : Int) : Except String Int :=
  if count ≤ 0 then .error ("Invalid count: " ++ toString count)
  else
    let plen : Int := 32 - (floorLog2 count.toNat : Int)
    if plen < 0 ∨ 32 < plen then
      .error ("Invalid prefix length " ++ toString plen ++ " for count " ++ toString count)
    else .ok plen

/-! ## APNICFetcher.parse_data -/

/-- Outcome of the loop body of parse_data for one line: skipped lines
(comments, headers, blanks, short records, non-AU or non-ipv4 records),
invalid entries (count parse or derivation failure, caught and counted
in the Python source), and accepted CIDR ranges. -/
inductive LineResult
  | skipped
  | invalid
  | accepted (r : String)
deriving DecidableEq

/-- Body of the try block of parse_data: parse the count field as an
integer, derive the CIDR length, and format start slash length; an
int or derivation failure is the caught ValueError, counted as an
invalid entry. -/
def deriveRange (start value : List Char) : LineResult :=
  match pyInt? value with
  | none => .invalid
  | some count =>
    match count_to_cidr count with
    | .error _ => .invalid
    | .ok plen => .accepted ((start ++ '/' :: (toString plen).toList).asString)

/-- Translation of the loop body of APNICFetcher.parse_data for a single
line of the feed. Field positions in the pipe-separated record:
registry 0, country code 1, resource type 2, start address 3, count 4;
the source requires at least 7 fields and upper-cases the country code
before comparing it with AU. -/
def parse_line (line : String) : LineResult :=
  if pyStartsWith line "#" || pyStartsWith line "2." || pyStartsWith line "2|" || pyIsBlank line then
    .skipped
  else if (splitOnChar '|' line.toList).length < 7 then .skipped
  else if ((splitOnChar '|' line.toList).getD 1 []).map Char.toUpper = "AU".toList
        ∧ (splitOnChar '|' line.toList).getD 2 [] = "ipv4".toList then
    deriveRange ((splitOnChar '|' line.toList).getD 3 []) ((splitOnChar '|' line.toList).getD 4 [])
  else .skipped

/-- Translation of APNICFetcher.parse_data: fold the loop body over the
lines of the feed, accumulating the range list and the invalid-entry
count, and return the range list. -/
def parse_data (data : String) : List String :=
  ((pyLines data).foldl
    (fun acc line =>
      match parse_line line with
      | .accepted r => (acc.1 ++ [r], acc.2)
      | .invalid => (acc.1, acc.2 + 1)
      | .skipped => acc)
    ([], 0)).1

/-- Ranges contributed by a single line: one for an accepted record,
none otherwise. -/
def lineRanges (line : String) : List String :=
  match parse_line line with
  | .accepted r => [r]
  | _ => []

/-! ## Properties of floorLog2 -/

theorem log2Fuel_pow : ∀ k f, k ≤ f → log2Fuel f (2 ^ k) = k := by
  intro k
  induction k with
  | zero =>
    intro f _
    cases f <;> simp [log2Fuel]
  | succ k ih =>
    intro f hf
    obtain ⟨f', rfl⟩ : ∃ f', f = f' + 1 := ⟨f - 1, by omega⟩
    have h2 : 2 ≤ 2 ^ (k + 1) := by
      calc 2 = 2 ^ 1 := rfl
      _ ≤ 2 ^ (k + 1) := Nat.pow_le_pow_right (by norm_num) (by omega)
    have hdiv : 2 ^ (k + 1) / 2 = 2 ^ k := by
      rw [Nat.pow_succ, Nat.mul_div_cancel _ (by norm_num)]
    simp only [log2Fuel, if_pos h2, hdiv]
    rw [ih f' (by omega)]

theorem floorLog2_pow (k : Nat) : floorLog2 (2 ^ k) = k :=
  log2Fuel_pow k (2 ^ k) (Nat.le_of_lt (Nat.lt_two_pow k))

/-! ## Claim C3: count_to_cidr on powers of two and invalid counts -/

/-- C3: for every power of two 2^k with k at most 32, count_to_cidr
returns 32 - k; for every count at most 0 it fails with an
invalid-count error; and for every positive count whose derived value
32 - floor(log2 count) falls outside 0..32 it fails with an error
rather than returning. -/
theorem count_to_cidr_spec :
    (∀ k : Nat, k ≤ 32 → count_to_cidr ((2 : Int) ^ k) = .ok (32 - (k : Int))) ∧
    (∀ c : Int, c ≤ 0 → count_to_cidr c = .error ("Invalid count: " ++ toString c)) ∧
    (∀ c : Int, 0 < c →
      (32 - (floorLog2 c.toNat : Int) < 0 ∨ 32 < 32 - (floorLog2 c.toNat : Int)) →
      ∃ msg, count_to_cidr c = .error msg) := by
  refine ⟨?_, ?_, ?_⟩
  · intro k hk
    have hpos : (0 : Int) < 2 ^ k := by positivity
    have hcast : ((2 : Int) ^ k) = ((2 ^ k : Nat) : Int) := by push_cast; ring
    have htn : ((2 : Int) ^ k).toNat = 2 ^ k := by
      rw [hcast, Int.toNat_natCast]
    have hk' : (k : Int) ≤ 32 := by exact_mod_cast hk
    unfold count_to_cidr
    rw [if_neg (by omega), htn, floorLog2_pow]
    rw [if_neg (by omega)]
  · intro c hc
    unfold count_to_cidr
    rw [if_pos hc]
  · intro c hc hout
    unfold count_to_cidr
    rw [if_neg (by omega), if_pos hout]
    exact ⟨_, rfl⟩

/-- Concrete instances of the three parts of count_to_cidr_spec. -/
theorem count_to_cidr_spec_witness :
    count_to_cidr ((2 : Int) ^ 8) = .ok (32 - ((8 : Nat) : Int)) ∧
    count_to_cidr (-5) = .error ("Invalid count: " ++ toString (-5 : Int)) ∧
    (∃ msg, count_to_cidr 8589934592 = .error msg) :=
  ⟨count_to_cidr_spec.1 8 (by decide),
   count_to_cidr_spec.2.1 (-5) (by decide),
   count_to_cidr_spec.2.2 8589934592 (by decide) (by decide)⟩

/-! ## Decomposition of parse_data into per-line outcomes -/

theorem parse_foldl_ranges :
    ∀ (lines : List String) (rs : List String) (e : Nat),
      (lines.foldl
        (fun acc line =>
          match parse_line line with
          | .accepted r => (acc.1 ++ [r], acc.2)
          | .invalid => (acc.1, acc.2 + 1)
          | .skipped => acc)
        (rs, e)).1 = rs ++ lines.flatMap lineRanges := by
  intro lines
  induction lines with
  | nil => intro rs e; simp
  | cons l ls ih =>
    intro rs e
    rw [List.foldl_cons, List.flatMap_cons]
    cases h : parse_line l <;> simp [lineRanges, h, ih]

theorem parse_data_eq_flatMap (data : String) :
    parse_data data = (pyLines data).flatMap lineRanges := by
  unfold parse_data
  rw [parse_foldl_ranges]
  simp

theorem mem_lineRanges {line r : String} :
    r ∈ lineRanges line ↔ parse_line line = .accepted r := by
  unfold lineRanges
  cases h : parse_line line <;> simp [eq_comm]

/-- Record eligibility, following the claim: the line is not skipped as a
comment, header or blank; it has at least 7 pipe-separated fields; its
country code equals AU case-insensitively; its resource type is the
literal ipv4; and its count field parses and derives a valid CIDR
length, yielding the range start slash derived length. -/
def eligibleYield (line r : String) : Prop :=
  (pyStartsWith line "#" || pyStartsWith line "2." || pyStartsWith line "2|" || pyIsBlank line) = false ∧
  7 ≤ (splitOnChar '|' line.toList).length ∧
  ((splitOnChar '|' line.toList).getD 1 []).map Char.toUpper = "AU".toList ∧
  (splitOnChar '|' line.toList).getD 2 [] = "ipv4".toList ∧
  ∃ count plen, pyInt? ((splitOnChar '|' line.toList).getD 4 []) = some count ∧
    count_to_cidr count = Except.ok plen ∧
    r = (((splitOnChar '|' line.toList).getD 3 []) ++ '/' :: (toString plen).toList).asString

theorem deriveRange_accepted_iff (start value : List Char) (r : String) :
    deriveRange start value = .accepted r ↔
    ∃ count plen, pyInt? value = some count ∧ count_to_cidr count = Except.ok plen ∧
      r = (start ++ '/' :: (toString plen).toList).asString := by
  unfold deriveRange
  cases hv : pyInt? value with
  | none => simp
  | some count =>
    cases hc : count_to_cidr count with
    | error msg => simp [hc]
    | ok plen => simp [hc, eq_comm]

theorem parse_line_accepted_iff (line r : String) :
    parse_line line = .accepted r ↔ eligibleYield line r := by
  unfold parse_line eligibleYield
  by_cases h1 : (pyStartsWith line "#" || pyStartsWith line "2." || pyStartsWith line "2|" || pyIsBlank line) = true
  · rw [if_pos h1]
    constructor
    · intro h; exact absurd h (by simp)
    · rintro ⟨hf, -⟩; rw [h1] at hf; cases hf
  · have h1f : (pyStartsWith line "#" || pyStartsWith line "2." || pyStartsWith line "2|" || pyIsBlank line) = false := by
      simpa using h1
    rw [if_neg h1]
    by_cases h2 : (splitOnChar '|' line.toList).length < 7
    · rw [if_pos h2]
      constructor
      · intro h; exact absurd h (by simp)
      · rintro ⟨-, h7, -⟩; omega
    · rw [if_neg h2]
      have h7 : 7 ≤ (splitOnChar '|' line.toList).length := by omega
      by_cases h3 : ((splitOnChar '|' line.toList).getD 1 []).map Char.toUpper = "AU".toList
          ∧ (splitOnChar '|' line.toList).getD 2 [] = "ipv4".toList
      · rw [if_pos h3]
        obtain ⟨h3a, h3b⟩ := h3
        rw [deriveRange_accepted_iff]
        constructor
        · intro hx; exact ⟨h1f, h7, h3a, h3b, hx⟩
        · rintro ⟨-, -, -, -, hx⟩; exact hx
      · rw [if_neg h3]
        constructor
        · intro h; exact absurd h (by simp)
        · rintro ⟨-, -, hcc, hrt, -⟩
          exact absurd ⟨hcc, hrt⟩ h3

/-! ## Claim C6: parse_data keeps exactly the eligible AU ipv4 records -/

/-- C6: a range appears in the output exactly when some line of the feed
is an eligible data record yielding it (country code AU
case-insensitively, resource type ipv4, valid derived length), and the
single record apnic|AU|ipv4|1.2.3.0|256|20200101|allocated parses to
exactly the range 1.2.3.0/24. -/
theorem parse_data_filter :
    (∀ data r, r ∈ parse_data data ↔ ∃ line, line ∈ pyLines data ∧ eligibleYield line r) ∧
    parse_data "apnic|AU|ipv4|1.2.3.0|256|20200101|allocated" = ["1.2.3.0/24"] := by
  constructor
  · intro data r
    rw [parse_data_eq_flatMap, List.mem_flatMap]
    constructor
    · rintro ⟨line, hline, hr⟩
      exact ⟨line, hline, (parse_line_accepted_iff line r).mp (mem_lineRanges.mp hr)⟩
    · rintro ⟨line, hline, he⟩
      exact ⟨line, hline, mem_lineRanges.mpr ((parse_line_accepted_iff line r).mpr he)⟩
  · decide

/-! ## Claim C7: parse_data processes every line and never fails -/

/-- C7: parse_data is a total function whose output decomposes line by
line (so a malformed line only contributes nothing and never stops the
processing of later lines), and an input in which no line yields a
range produces the empty list rather than an error. -/
theorem parse_data_total :
    (∀ data, parse_data data = (pyLines data).flatMap lineRanges) ∧
    (∀ data, (∀ l ∈ pyLines data, lineRanges l = []) → parse_data data = []) := by
  constructor
  · exact parse_data_eq_flatMap
  · intro data h
    rw [parse_data_eq_flatMap]
    exact List.flatMap_eq_nil_iff.mpr h

/-- Concrete instance of parse_data_total on a feed of comments, a
version header, a blank line and a short record: every line is
fruitless and the result is empty. -/
theorem parse_data_total_witness :
    parse_data "#comment\n2|apnic|20200101\n   \napnic|AU|ipv4|1.2.3.0|256" = [] :=
  parse_data_total.2 "#comment\n2|apnic|20200101\n   \napnic|AU|ipv4|1.2.3.0|256" (by decide)

/-! ## Claim C9: validation of the emitted ranges -/

/-- Following the spec: an IPv4 dotted-quad is four dot-separated
decimal components, each a digit string with value at most 255. -/
def isDottedQuad (s : String) : Bool :=
  (splitOnChar '.' s.toList).length = 4 &&
  (splitOnChar '.' s.toList).all (fun p =>
    !p.isEmpty && p.all Char.isDigit &&
    (match digitsToNat? p with
     | some n => n ≤ 255
     | none => false))

theorem count_to_cidr_ok_bounds {c p : Int} (h : count_to_cidr c = .ok p) :
    0 ≤ p ∧ p ≤ 32 := by
  unfold count_to_cidr at h
  split at h
  · cases h
  · dsimp only at h
    split at h
    · cases h
    · rename_i hout
      have := Except.ok.inj h
      omega

/-- C9 counterexample: the start-address field is copied into the output
verbatim, with no validation that it is an IPv4 dotted-quad. -/
theorem parse_data_start_not_validated :
    parse_data "apnic|AU|ipv4|hello|256|20200101|allocated" = ["hello/24"] ∧
    isDottedQuad "hello" = false := by
  decide

/-- C9 amended: every element of the parse_data output has the shape
start slash length with the length validated to lie in 0..32; the start
part is the record field taken verbatim and is not validated. -/
theorem parse_data_plen_bounds :
    ∀ data r, r ∈ parse_data data →
      ∃ (start : List Char) (plen : Int), 0 ≤ plen ∧ plen ≤ 32 ∧
        r = (start ++ '/' :: (toString plen).toList).asString := by
  intro data r hr
  rw [parse_data_eq_flatMap, List.mem_flatMap] at hr
  obtain ⟨line, -, hmem⟩ := hr
  have he := (parse_line_accepted_iff line r).mp (mem_lineRanges.mp hmem)
  obtain ⟨-, -, -, -, count, plen, -, hc, hrr⟩ := he
  obtain ⟨hp0, hp32⟩ := count_to_cidr_ok_bounds hc
  exact ⟨_, plen, hp0, hp32, hrr⟩

/-- Concrete instance of parse_data_plen_bounds at the sample record. -/
theorem parse_data_plen_bounds_witness :
    ∃ (start : List Char) (plen : Int), 0 ≤ plen ∧ plen ≤ 32 ∧
      "1.2.3.0/24" = (start ++ '/' :: (toString plen).toList).asString :=
  parse_data_plen_bounds "apnic|AU|ipv4|1.2.3.0|256|20200101|allocated" "1.2.3.0/24" (by decide)

/-! ## The iptables reconciler of iptables_manager.py

The manager runs individual iptables commands against the kernel
firewall. The commands actually issued by the source are modelled by
the Cmd type; a backend is a function deciding, per command and
firewall state, success and the next state. Every manager operation
threads an execution state holding the firewall state together with
the list of commands issued so far, so both the resulting kernel state
and the command order are observable. -/

namespace IPT

/-- Name of the whitelist chain, from util.py. -/
def CHAIN_NAME : String := "AU_WHITELIST"

/-- Rule targets used by the source: ACCEPT, DROP, or a jump to a named
chain. -/
inductive Action
  | accept
  | drop
  | jump (chain : String)
deriving DecidableEq

/-- One iptables rule as issued by the source: an optional source-CIDR
match and a target. -/
structure Rule where
  source : Option String
  action : Action
deriving DecidableEq

/-- The iptables invocations appearing in iptables_manager.py. -/
inductive Cmd
  | listChain (name : String)
  | newChain (name : String)
  | flushChain (name : String)
  | deleteChain (name : String)
  | appendRule (name : String) (r : Rule)
  | insertRule (name : String) (pos : Nat) (r : Rule)
  | deleteRule (name : String) (r : Rule)
deriving DecidableEq

/-- Kernel firewall state relevant to the source: the AU_WHITELIST
chain (none when absent) and the rules of the built-in INPUT chain. -/
structure FirewallState where
  chain : Option (List Rule)
  input : List Rule
deriving DecidableEq

/-- A firewall backend: per command, report success and the next
firewall state. -/
abbrev Backend := Cmd → FirewallState → Bool × FirewallState

/-- Execution state of a manager run: the firewall state plus the
commands issued so far in order. -/
structure ExecSt where
  fw : FirewallState
  issued : List Cmd
deriving DecidableEq

/-- An ACCEPT rule for a source range, as appended by
add_whitelist_rules. -/
def acceptRule (r : String) : Rule := ⟨some r, .accept⟩

/-- The INPUT rule jumping to the whitelist chain. -/
def jumpRule : Rule := ⟨none, .jump CHAIN_NAME⟩

/-- The tail default-deny rule of INPUT. -/
def dropRule : Rule := ⟨none, .drop⟩

/-- The fixed mandatory local/private ranges of add_whitelist_rules. -/
def CRITICAL_LOCAL_RANGES : List String :=
  ["127.0.0.0/8", "10.0.0.0/8", "172.16.0.0/12",
   "192.168.0.0/16", "169.254.0.0/16", "224.0.0.0/4"]

/-- Issue one command to the backend, recording it in the trace. -/
def issue (beh : Backend) (st : ExecSt) (args : Cmd) : Bool × ExecSt :=
  match beh args st.fw with
  | (ok, fw') => (ok, ⟨fw', st.issued ++ [args]⟩)

/-- Translation of IPTablesManager.run_iptables: run the command; on
failure with check set, raise carrying the failing command (and the
state, which the kernel keeps); with check unset report the failure by
returning normally. -/
def run_iptables (beh : Backend) (st : ExecSt) (args : Cmd) (check : Bool) :
    Except (Cmd × ExecSt) ExecSt :=
  match issue beh st args with
  | (true, st') => .ok st'
  | (false, st') => if check then .error (args, st') else .ok st'

/-- Translation of IPTablesManager.chain_exists: list the chain with
check unset and report whether the command succeeded. -/
def chain_exists (beh : Backend) (st : ExecSt) : Bool × ExecSt :=
  issue beh st (.listChain CHAIN_NAME)

/-- Translation of IPTablesManager.create_whitelist_chain: if the chain
exists, flush and delete it best-effort; then create it, failing fast. -/
def create_whitelist_chain (beh : Backend) (st0 : ExecSt) : Except (Cmd × ExecSt) ExecSt := do
  let (ex, st1) := chain_exists beh st0
  let st2 ←
    if ex then do
      let st ← run_iptables beh st1 (.flushChain CHAIN_NAME) false
      run_iptables beh st (.deleteChain CHAIN_NAME) false
    else pure st1
  run_iptables beh st2 (.newChain CHAIN_NAME) true

/-- Translation of IPTablesManager.add_whitelist_rules: append an
ACCEPT rule for every critical local range and then for every given
range, each append best-effort (check unset). -/
def add_whitelist_rules (beh : Backend) (ranges : List String) (st0 : ExecSt) :
    Except (Cmd × ExecSt) ExecSt := do
  let st1 ← CRITICAL_LOCAL_RANGES.foldlM
    (fun st r => run_iptables beh st (.appendRule CHAIN_NAME (acceptRule r)) false) st0
  ranges.foldlM
    (fun st r => run_iptables beh st (.appendRule CHAIN_NAME (acceptRule r)) false) st1

/-- Translation of IPTablesManager.apply_firewall_rules: best-effort
removal of a pre-existing jump and a pre-existing DROP from INPUT, then
fail-fast insert of the jump at position 1 and fail-fast append of the
tail DROP. -/
def apply_firewall_rules (beh : Backend) (st0 : ExecSt) : Except (Cmd × ExecSt) ExecSt := do
  let st1 ← run_iptables beh st0 (.deleteRule "INPUT" jumpRule) false
  let st2 ← run_iptables beh st1 (.deleteRule "INPUT" dropRule) false
  let st3 ← run_iptables beh st2 (.insertRule "INPUT" 1 jumpRule) true
  run_iptables beh st3 (.appendRule "INPUT" dropRule) true

/-- Translation of IPTablesManager.remove_firewall_rules: best-effort
removal of the DROP and jump rules from INPUT, then, if the chain still
exists, best-effort flush and delete of the chain. -/
def remove_firewall_rules (beh : Backend) (st0 : ExecSt) : Except (Cmd × ExecSt) ExecSt := do
  let st1 ← run_iptables beh st0 (.deleteRule "INPUT" dropRule) false
  let st2 ← run_iptables beh st1 (.deleteRule "INPUT" jumpRule) false
  let (ex, st3) := chain_exists beh st2
  if ex then do
    let st4 ← run_iptables beh st3 (.flushChain CHAIN_NAME) false
    run_iptables beh st4 (.deleteChain CHAIN_NAME) false
  else pure st3

/-- The firewall phase of install_firewall in block_non_au_ips.py:
create the chain, populate it, then link it into INPUT. -/
def install (beh : Backend) (ranges : List String) (st0 : ExecSt) :
    Except (Cmd × ExecSt) ExecSt := do
  let st1 ← create_whitelist_chain beh st0
  let st2 ← add_whitelist_rules beh ranges st1
  apply_firewall_rules beh st2

/-- Insert an element at a position of a list. -/
def insertAt (l : List Rule) (i : Nat) (r : Rule) : List Rule :=
  l.take i ++ r :: l.drop i

/-- Modelled from the spec: the FirewallBackend capability of section 6
(chainExists, createChain, flushChain, deleteChain, appendRule,
insertRuleAtHead, deleteRule), with the natural success conditions the
spec describes — creating fails when the chain exists, flushing,
deleting and rule-removal fail when the target is absent, and the
built-in INPUT chain always exists. The backend itself (the iptables
binary) is not part of the repository. -/
def specBackend : Backend := fun c s =>
  match c with
  | .listChain n =>
    if n = "INPUT" then (true, s)
    else if n = CHAIN_NAME then (s.chain.isSome, s)
    else (false, s)
  | .newChain n =>
    if n = CHAIN_NAME then
      match s.chain with
      | some _ => (false, s)
      | none => (true, { s with chain := some [] })
    else (false, s)
  | .flushChain n =>
    if n = "INPUT" then (true, { s with input := [] })
    else if n = CHAIN_NAME then
      match s.chain with
      | some _ => (true, { s with chain := some [] })
      | none => (false, s)
    else (false, s)
  | .deleteChain n =>
    if n = CHAIN_NAME then
      match s.chain with
      | some _ => (true, { s with chain := none })
      | none => (false, s)
    else (false, s)
  | .appendRule n r =>
    if n = "INPUT" then (true, { s with input := s.input ++ [r] })
    else if n = CHAIN_NAME then
      match s.chain with
      | some rs => (true, { s with chain := some (rs ++ [r]) })
      | none => (false, s)
    else (false, s)
  | .insertRule n pos r =>
    if n = "INPUT" then
      if pos - 1 ≤ s.input.length then (true, { s with input := insertAt s.input (pos - 1) r })
      else (false, s)
    else if n = CHAIN_NAME then
      match s.chain with
      | some rs =>
        if pos - 1 ≤ rs.length then (true, { s with chain := some (insertAt rs (pos - 1) r) })
        else (false, s)
      | none => (false, s)
    else (false, s)
  | .deleteRule n r =>
    if n = "INPUT" then
      if r ∈ s.input then (true, { s with input := s.input.erase r })
      else (false, s)
    else if n = CHAIN_NAME then
      match s.chain with
      | some rs =>
        if r ∈ rs then (true, { s with chain := some (rs.erase r) })
        else (false, s)
      | none => (false, s)
    else (false, s)

end IPT

namespace IPT

/-! ## Execution lemmas -/

@[simp] theorem exbind_ok {α β γ : Type} (a : α) (f : α → Except γ β) :
    (Except.ok a >>= f) = f a := rfl

@[simp] theorem exbind_error {α β γ : Type} (e : γ) (f : α → Except γ β) :
    ((Except.error e : Except γ α) >>= f) = Except.error e := rfl

@[simp] theorem expure_ok {α γ : Type} (a : α) :
    (pure a : Except γ α) = Except.ok a := rfl

/-- A best-effort command always returns normally, with the command
recorded and the firewall state advanced to whatever the backend did. -/
theorem run_false (beh : Backend) (st : ExecSt) (c : Cmd) :
    run_iptables beh st c false = .ok ⟨(beh c st.fw).2, st.issued ++ [c]⟩ := by
  unfold run_iptables issue
  rcases h : beh c st.fw with ⟨ok, fw'⟩
  cases ok <;> simp [h]

/-- A fail-fast command returns normally on success and raises the
failing command on failure; either way it is recorded. -/
theorem run_true (beh : Backend) (st : ExecSt) (c : Cmd) :
    run_iptables beh st c true =
      if (beh c st.fw).1 then .ok ⟨(beh c st.fw).2, st.issued ++ [c]⟩
      else .error (c, ⟨(beh c st.fw).2, st.issued ++ [c]⟩) := by
  unfold run_iptables issue
  rcases h : beh c st.fw with ⟨ok, fw'⟩
  cases ok <;> simp [h]

/-! ## Behaviour of the manager operations over the spec backend -/

theorem create_spec (st : ExecSt) :
    ∃ t, create_whitelist_chain specBackend st = .ok ⟨⟨some [], st.fw.input⟩, t⟩ := by
  obtain ⟨⟨ch, inp⟩, iss⟩ := st
  cases ch with
  | none => exact ⟨_, rfl⟩
  | some rs => exact ⟨_, rfl⟩

theorem add_fold_spec (l : List String) :
    ∀ (rs inp : List Rule) (iss : List Cmd),
      l.foldlM (fun st r => run_iptables specBackend st (.appendRule CHAIN_NAME (acceptRule r)) false)
        (⟨⟨some rs, inp⟩, iss⟩ : ExecSt) =
      .ok ⟨⟨some (rs ++ l.map acceptRule), inp⟩,
           iss ++ l.map (fun r => Cmd.appendRule CHAIN_NAME (acceptRule r))⟩ := by
  induction l with
  | nil => intro rs inp iss; simp
  | cons a l ih =>
    intro rs inp iss
    rw [List.foldlM_cons]
    have hstep : run_iptables specBackend ⟨⟨some rs, inp⟩, iss⟩
        (.appendRule CHAIN_NAME (acceptRule a)) false =
        .ok ⟨⟨some (rs ++ [acceptRule a]), inp⟩,
             iss ++ [Cmd.appendRule CHAIN_NAME (acceptRule a)]⟩ := rfl
    rw [hstep, exbind_ok, ih]
    simp

theorem add_spec (ranges : List String) (rs inp : List Rule) (iss : List Cmd) :
    add_whitelist_rules specBackend ranges ⟨⟨some rs, inp⟩, iss⟩ =
      .ok ⟨⟨some (rs ++ (CRITICAL_LOCAL_RANGES ++ ranges).map acceptRule), inp⟩,
           iss ++ (CRITICAL_LOCAL_RANGES ++ ranges).map
             (fun r => Cmd.appendRule CHAIN_NAME (acceptRule r))⟩ := by
  unfold add_whitelist_rules
  rw [add_fold_spec, exbind_ok, add_fold_spec]
  simp

theorem run_deleteRule_input (st : ExecSt) (r : Rule) :
    run_iptables specBackend st (.deleteRule "INPUT" r) false =
      .ok ⟨⟨st.fw.chain, st.fw.input.erase r⟩, st.issued ++ [Cmd.deleteRule "INPUT" r]⟩ := by
  rw [run_false]
  by_cases h : r ∈ st.fw.input
  · simp [specBackend, h]
  · simp [specBackend, h, List.erase_of_not_mem h]

theorem apply_spec (st : ExecSt) :
    apply_firewall_rules specBackend st =
      .ok ⟨⟨st.fw.chain, jumpRule :: ((st.fw.input.erase jumpRule).erase dropRule) ++ [dropRule]⟩,
           st.issued ++ [Cmd.deleteRule "INPUT" jumpRule, Cmd.deleteRule "INPUT" dropRule,
             Cmd.insertRule "INPUT" 1 jumpRule, Cmd.appendRule "INPUT" dropRule]⟩ := by
  unfold apply_firewall_rules
  rw [run_deleteRule_input, exbind_ok, run_deleteRule_input, exbind_ok, run_true]
  have hins : (specBackend (.insertRule "INPUT" 1 jumpRule)
      ⟨st.fw.chain, (st.fw.input.erase jumpRule).erase dropRule⟩) =
      (true, ⟨st.fw.chain, jumpRule :: ((st.fw.input.erase jumpRule).erase dropRule)⟩) := by
    simp [specBackend, insertAt]
  rw [hins]
  simp only [if_pos]
  rw [exbind_ok, run_true]
  have happ : (specBackend (.appendRule "INPUT" dropRule)
      ⟨st.fw.chain, jumpRule :: ((st.fw.input.erase jumpRule).erase dropRule)⟩) =
      (true, ⟨st.fw.chain, jumpRule :: ((st.fw.input.erase jumpRule).erase dropRule) ++ [dropRule]⟩) := by
    simp [specBackend]
  rw [happ]
  simp

theorem remove_spec (st : ExecSt) :
    ∃ t, remove_firewall_rules specBackend st =
      .ok ⟨⟨none, (st.fw.input.erase dropRule).erase jumpRule⟩, t⟩ := by
  obtain ⟨⟨ch, inp⟩, iss⟩ := st
  unfold remove_firewall_rules
  rw [run_deleteRule_input, exbind_ok, run_deleteRule_input, exbind_ok]
  cases ch with
  | none => exact ⟨_, rfl⟩
  | some rs => exact ⟨_, rfl⟩

theorem install_spec (ranges : List String) (st : ExecSt) :
    ∃ t, install specBackend ranges st =
      .ok ⟨⟨some ((CRITICAL_LOCAL_RANGES ++ ranges).map acceptRule),
            jumpRule :: ((st.fw.input.erase jumpRule).erase dropRule) ++ [dropRule]⟩, t⟩ := by
  obtain ⟨tc, hc⟩ := create_spec st
  unfold install
  rw [hc, exbind_ok, add_spec, exbind_ok, apply_spec]
  exact ⟨_, rfl⟩

end IPT

namespace IPT

/-! ## Claim C1: install is idempotent over the spec backend -/

/-- C1: from a backend state whose INPUT chain does not already carry a
stray whitelist jump or bare DROP rule, running install twice with the
same ranges produces the same firewall state as running it once: the
chain holds exactly the mandatory ranges followed by the given ranges,
INPUT carries exactly one jump rule and exactly one DROP rule, and the
DROP rule is the tail. -/
theorem install_idempotent (ranges : List String) (st0 : ExecSt)
    (h1 : jumpRule ∉ st0.fw.input) (h2 : dropRule ∉ st0.fw.input) :
    ∃ st1 st2,
      install specBackend ranges st0 = .ok st1 ∧
      install specBackend ranges st1 = .ok st2 ∧
      st2.fw = st1.fw ∧
      st1.fw.chain = some ((CRITICAL_LOCAL_RANGES ++ ranges).map acceptRule) ∧
      st1.fw.input = jumpRule :: st0.fw.input ++ [dropRule] ∧
      st1.fw.input.count jumpRule = 1 ∧
      st1.fw.input.count dropRule = 1 ∧
      st1.fw.input.getLast? = some dropRule := by
  have hne : jumpRule ≠ dropRule := by decide
  obtain ⟨t1, hI1⟩ := install_spec ranges st0
  have he0 : (st0.fw.input.erase jumpRule).erase dropRule = st0.fw.input := by
    rw [List.erase_of_not_mem h1, List.erase_of_not_mem h2]
  rw [he0] at hI1
  obtain ⟨t2, hI2⟩ := install_spec ranges
    ⟨⟨some ((CRITICAL_LOCAL_RANGES ++ ranges).map acceptRule),
      jumpRule :: st0.fw.input ++ [dropRule]⟩, t1⟩
  have he1 : ((jumpRule :: st0.fw.input ++ [dropRule]).erase jumpRule).erase dropRule
      = st0.fw.input := by
    rw [List.erase_append_left _ (List.mem_cons_self _ _), List.erase_cons_head,
        List.erase_append_right _ h2]
    simp
  dsimp only at hI2
  simp only [he1] at hI2
  refine ⟨_, _, hI1, hI2, rfl, rfl, rfl, ?_, ?_, ?_⟩
  · simp [List.count_cons, List.count_append, List.count_eq_zero.mpr h1, hne]
  · simp [List.count_cons, List.count_append, List.count_eq_zero.mpr h2, Ne.symm hne]
  · rw [show jumpRule :: st0.fw.input ++ [dropRule]
        = (jumpRule :: st0.fw.input) ++ [dropRule] from rfl, List.getLast?_concat]

/-- Concrete instance of install_idempotent from an empty firewall. -/
theorem install_idempotent_witness :
    jumpRule ∉ (⟨⟨none, []⟩, []⟩ : ExecSt).fw.input ∧
    dropRule ∉ (⟨⟨none, []⟩, []⟩ : ExecSt).fw.input ∧
    ∃ st1 st2,
      install specBackend ["1.0.0.0/8"] ⟨⟨none, []⟩, []⟩ = .ok st1 ∧
      install specBackend ["1.0.0.0/8"] st1 = .ok st2 ∧
      st2.fw = st1.fw ∧
      st1.fw.chain = some ((CRITICAL_LOCAL_RANGES ++ ["1.0.0.0/8"]).map acceptRule) ∧
      st1.fw.input = jumpRule :: (⟨⟨none, []⟩, []⟩ : ExecSt).fw.input ++ [dropRule] ∧
      st1.fw.input.count jumpRule = 1 ∧
      st1.fw.input.count dropRule = 1 ∧
      st1.fw.input.getLast? = some dropRule :=
  ⟨by decide, by decide,
   install_idempotent ["1.0.0.0/8"] ⟨⟨none, []⟩, []⟩ (by decide) (by decide)⟩

/-! ## Claim C5: uninstall after install restores a fresh host -/

/-- C5: for every backend state produced by a completed install (from a
state carrying no stray whitelist jump or bare DROP rule in INPUT),
remove_firewall_rules removes the head jump and tail DROP rules from
INPUT and deletes the whitelist chain, leaving no chain and the
original INPUT rules. -/
theorem install_uninstall_roundtrip (ranges : List String) (st0 st1 : ExecSt)
    (h1 : jumpRule ∉ st0.fw.input) (h2 : dropRule ∉ st0.fw.input)
    (hI : install specBackend ranges st0 = .ok st1) :
    ∃ st2, remove_firewall_rules specBackend st1 = .ok st2 ∧
      st2.fw.chain = none ∧ st2.fw.input = st0.fw.input := by
  have hne : dropRule ≠ jumpRule := by decide
  obtain ⟨t1, hI'⟩ := install_spec ranges st0
  rw [hI] at hI'
  obtain rfl := Except.ok.inj hI'
  have he0 : (st0.fw.input.erase jumpRule).erase dropRule = st0.fw.input := by
    rw [List.erase_of_not_mem h1, List.erase_of_not_mem h2]
  obtain ⟨t2, hR⟩ := remove_spec
    ⟨⟨some ((CRITICAL_LOCAL_RANGES ++ ranges).map acceptRule),
      jumpRule :: ((st0.fw.input.erase jumpRule).erase dropRule) ++ [dropRule]⟩, t1⟩
  refine ⟨_, hR, rfl, ?_⟩
  show (((jumpRule :: ((st0.fw.input.erase jumpRule).erase dropRule) ++ [dropRule]).erase dropRule).erase jumpRule)
      = st0.fw.input
  rw [he0,
    List.erase_append_right _ (show dropRule ∉ jumpRule :: st0.fw.input by simp [List.mem_cons, hne, h2])]
  simp [List.erase_cons_head]

/-- The execution state produced by installing the single range
1.0.0.0/8 on an empty firewall. -/
def installedExample : ExecSt :=
  ⟨⟨some [acceptRule "127.0.0.0/8", acceptRule "10.0.0.0/8", acceptRule "172.16.0.0/12",
          acceptRule "192.168.0.0/16", acceptRule "169.254.0.0/16", acceptRule "224.0.0.0/4",
          acceptRule "1.0.0.0/8"],
    [jumpRule, dropRule]⟩,
   [Cmd.listChain CHAIN_NAME, Cmd.newChain CHAIN_NAME,
    Cmd.appendRule CHAIN_NAME (acceptRule "127.0.0.0/8"),
    Cmd.appendRule CHAIN_NAME (acceptRule "10.0.0.0/8"),
    Cmd.appendRule CHAIN_NAME (acceptRule "172.16.0.0/12"),
    Cmd.appendRule CHAIN_NAME (acceptRule "192.168.0.0/16"),
    Cmd.appendRule CHAIN_NAME (acceptRule "169.254.0.0/16"),
    Cmd.appendRule CHAIN_NAME (acceptRule "224.0.0.0/4"),
    Cmd.appendRule CHAIN_NAME (acceptRule "1.0.0.0/8"),
    Cmd.deleteRule "INPUT" jumpRule, Cmd.deleteRule "INPUT" dropRule,
    Cmd.insertRule "INPUT" 1 jumpRule, Cmd.appendRule "INPUT" dropRule]⟩

/-- Concrete instance of install_uninstall_roundtrip. -/
theorem install_uninstall_roundtrip_witness :
    ∃ st2, remove_firewall_rules specBackend installedExample = .ok st2 ∧
      st2.fw.chain = none ∧ st2.fw.input = (⟨⟨none, []⟩, []⟩ : ExecSt).fw.input :=
  install_uninstall_roundtrip ["1.0.0.0/8"] ⟨⟨none, []⟩, []⟩ installedExample
    (by decide) (by decide) rfl

end IPT

namespace IPT

/-! ## Command-order and failure-mode lemmas over an arbitrary backend -/

theorem issue_eq (beh : Backend) (st : ExecSt) (c : Cmd) :
    issue beh st c = ((beh c st.fw).1, ⟨(beh c st.fw).2, st.issued ++ [c]⟩) := by
  unfold issue
  rcases h : beh c st.fw with ⟨ok, fw'⟩
  simp [h]

/-- Whatever the backend does, the link step issues the two removals
first, then the head insert, then the tail append; a fail-fast abort
can only happen at the insert (before the append is issued) or at the
append. -/
theorem apply_cases (beh : Backend) (st : ExecSt) :
    (∃ st', apply_firewall_rules beh st = .ok st' ∧
      st'.issued = st.issued ++ [Cmd.deleteRule "INPUT" jumpRule, Cmd.deleteRule "INPUT" dropRule,
        Cmd.insertRule "INPUT" 1 jumpRule, Cmd.appendRule "INPUT" dropRule]) ∨
    (∃ st', apply_firewall_rules beh st = .error (Cmd.insertRule "INPUT" 1 jumpRule, st') ∧
      st'.issued = st.issued ++ [Cmd.deleteRule "INPUT" jumpRule, Cmd.deleteRule "INPUT" dropRule,
        Cmd.insertRule "INPUT" 1 jumpRule]) ∨
    (∃ st', apply_firewall_rules beh st = .error (Cmd.appendRule "INPUT" dropRule, st') ∧
      st'.issued = st.issued ++ [Cmd.deleteRule "INPUT" jumpRule, Cmd.deleteRule "INPUT" dropRule,
        Cmd.insertRule "INPUT" 1 jumpRule, Cmd.appendRule "INPUT" dropRule]) := by
  unfold apply_firewall_rules
  rw [run_false, exbind_ok, run_false, exbind_ok, run_true]
  split
  · rw [exbind_ok, run_true]
    split
    · exact Or.inl ⟨_, rfl, by simp⟩
    · exact Or.inr (Or.inr ⟨_, rfl, by simp⟩)
  · exact Or.inr (Or.inl ⟨_, rfl, by simp⟩)

theorem create_cases (beh : Backend) (st : ExecSt) :
    ∀ c st', create_whitelist_chain beh st = .error (c, st') →
      c = Cmd.newChain CHAIN_NAME ∧ st'.issued.getLast? = some c := by
  intro c st' h
  unfold create_whitelist_chain chain_exists at h
  rw [issue_eq] at h
  dsimp only at h
  by_cases hx : ((beh (Cmd.listChain CHAIN_NAME) st.fw).1 = true)
  · rw [if_pos hx, run_false, exbind_ok, run_false, exbind_ok, run_true] at h
    split at h
    · exact Except.noConfusion h
    · injection h with h2
      injection h2 with hc hst
      subst hc; subst hst
      exact ⟨rfl, List.getLast?_concat _⟩
  · rw [if_neg hx, expure_ok, exbind_ok, run_true] at h
    split at h
    · exact Except.noConfusion h
    · injection h with h2
      injection h2 with hc hst
      subst hc; subst hst
      exact ⟨rfl, List.getLast?_concat _⟩

theorem create_ok (beh : Backend) (st : ExecSt)
    (hN : ∀ s, (beh (Cmd.newChain CHAIN_NAME) s).1 = true) :
    ∃ st', create_whitelist_chain beh st = .ok st' := by
  unfold create_whitelist_chain chain_exists
  rw [issue_eq]
  dsimp only
  by_cases hx : ((beh (Cmd.listChain CHAIN_NAME) st.fw).1 = true)
  · rw [if_pos hx, run_false, exbind_ok, run_false, exbind_ok, run_true, if_pos (hN _)]
    exact ⟨_, rfl⟩
  · rw [if_neg hx, expure_ok, exbind_ok, run_true, if_pos (hN _)]
    exact ⟨_, rfl⟩

theorem add_fold_any (beh : Backend) (l : List String) :
    ∀ st : ExecSt, ∃ fw',
      l.foldlM (fun st r => run_iptables beh st (.appendRule CHAIN_NAME (acceptRule r)) false) st =
        .ok ⟨fw', st.issued ++ l.map (fun r => Cmd.appendRule CHAIN_NAME (acceptRule r))⟩ := by
  induction l with
  | nil => intro st; exact ⟨st.fw, by simp⟩
  | cons a l ih =>
    intro st
    rw [List.foldlM_cons, run_false, exbind_ok]
    obtain ⟨fw', hf⟩ := ih ⟨(beh (Cmd.appendRule CHAIN_NAME (acceptRule a)) st.fw).2,
      st.issued ++ [Cmd.appendRule CHAIN_NAME (acceptRule a)]⟩
    rw [hf]
    exact ⟨fw', by simp⟩

theorem add_any (beh : Backend) (ranges : List String) (st : ExecSt) :
    ∃ fw', add_whitelist_rules beh ranges st =
      .ok ⟨fw', st.issued ++ (CRITICAL_LOCAL_RANGES ++ ranges).map
        (fun r => Cmd.appendRule CHAIN_NAME (acceptRule r))⟩ := by
  unfold add_whitelist_rules
  obtain ⟨fw1, h1⟩ := add_fold_any beh CRITICAL_LOCAL_RANGES st
  rw [h1, exbind_ok]
  obtain ⟨fw2, h2⟩ := add_fold_any beh ranges
    ⟨fw1, st.issued ++ CRITICAL_LOCAL_RANGES.map (fun r => Cmd.appendRule CHAIN_NAME (acceptRule r))⟩
  rw [h2]
  exact ⟨fw2, by simp⟩

end IPT

namespace IPT

/-! ## Claim C2: ordering of the link-step commands -/

/-- C2: for every backend and state, the link step issues the removal of
the pre-existing jump rule and of the pre-existing DROP rule first,
then inserts the jump at position 1 of INPUT, and only then appends the
DROP at the tail; the insert always precedes the append, and an abort
can only happen at the insert (before the append is issued) or at the
append. -/
theorem apply_firewall_rules_link_order (beh : Backend) (st : ExecSt) :
    (∃ st', apply_firewall_rules beh st = .ok st' ∧
      st'.issued = st.issued ++ [Cmd.deleteRule "INPUT" jumpRule, Cmd.deleteRule "INPUT" dropRule,
        Cmd.insertRule "INPUT" 1 jumpRule, Cmd.appendRule "INPUT" dropRule]) ∨
    (∃ st', apply_firewall_rules beh st = .error (Cmd.insertRule "INPUT" 1 jumpRule, st') ∧
      st'.issued = st.issued ++ [Cmd.deleteRule "INPUT" jumpRule, Cmd.deleteRule "INPUT" dropRule,
        Cmd.insertRule "INPUT" 1 jumpRule]) ∨
    (∃ st', apply_firewall_rules beh st = .error (Cmd.appendRule "INPUT" dropRule, st') ∧
      st'.issued = st.issued ++ [Cmd.deleteRule "INPUT" jumpRule, Cmd.deleteRule "INPUT" dropRule,
        Cmd.insertRule "INPUT" 1 jumpRule, Cmd.appendRule "INPUT" dropRule]) :=
  apply_cases beh st

/-! ## Claim C4: cleanup failures never abort, structural failures do -/

/-- C4: during install, whenever the three structural commands (create
chain, insert head jump, append tail DROP) succeed, install completes
normally no matter how the cleanup removals and whitelist appends fare;
and when install aborts, the surfaced failing command is one of those
three structural commands and is the last command issued, with the
state of everything already executed retained (no rollback). -/
theorem install_failure_modes (beh : Backend) (ranges : List String) (st0 : ExecSt) :
    ((∀ s, (beh (Cmd.newChain CHAIN_NAME) s).1 = true) →
     (∀ s, (beh (Cmd.insertRule "INPUT" 1 jumpRule) s).1 = true) →
     (∀ s, (beh (Cmd.appendRule "INPUT" dropRule) s).1 = true) →
     ∃ st', install beh ranges st0 = .ok st') ∧
    (∀ c st', install beh ranges st0 = .error (c, st') →
      (c = Cmd.newChain CHAIN_NAME ∨ c = Cmd.insertRule "INPUT" 1 jumpRule ∨
       c = Cmd.appendRule "INPUT" dropRule) ∧
      st'.issued.getLast? = some c) := by
  constructor
  · intro hN hI hA
    obtain ⟨st1, h1⟩ := create_ok beh st0 hN
    obtain ⟨fw2, h2⟩ := add_any beh ranges st1
    unfold install
    rw [h1, exbind_ok, h2, exbind_ok]
    unfold apply_firewall_rules
    rw [run_false, exbind_ok, run_false, exbind_ok, run_true, if_pos (hI _), exbind_ok,
        run_true, if_pos (hA _)]
    exact ⟨_, rfl⟩
  · intro c st' h
    unfold install at h
    cases hc : create_whitelist_chain beh st0 with
    | error e =>
      rw [hc, exbind_error] at h
      injection h with h2
      rw [h2] at hc
      obtain ⟨hcmd, hlast⟩ := create_cases beh st0 c st' hc
      exact ⟨Or.inl hcmd, hlast⟩
    | ok st1 =>
      rw [hc, exbind_ok] at h
      obtain ⟨fw2, h2⟩ := add_any beh ranges st1
      rw [h2, exbind_ok] at h
      rcases apply_cases beh ⟨fw2, st1.issued ++ (CRITICAL_LOCAL_RANGES ++ ranges).map
          (fun r => Cmd.appendRule CHAIN_NAME (acceptRule r))⟩ with
        ⟨st'', hok, -⟩ | ⟨st'', herr, hiss⟩ | ⟨st'', herr, hiss⟩
      · rw [hok] at h
        exact Except.noConfusion h
      · rw [herr] at h
        injection h with h2
        injection h2 with hec hest
        subst hec; subst hest
        refine ⟨Or.inr (Or.inl rfl), ?_⟩
        rw [hiss, show (st1.issued ++ (CRITICAL_LOCAL_RANGES ++ ranges).map
            (fun r => Cmd.appendRule CHAIN_NAME (acceptRule r))) ++
            [Cmd.deleteRule "INPUT" jumpRule, Cmd.deleteRule "INPUT" dropRule,
             Cmd.insertRule "INPUT" 1 jumpRule]
          = ((st1.issued ++ (CRITICAL_LOCAL_RANGES ++ ranges).map
            (fun r => Cmd.appendRule CHAIN_NAME (acceptRule r))) ++
            [Cmd.deleteRule "INPUT" jumpRule, Cmd.deleteRule "INPUT" dropRule]) ++
            [Cmd.insertRule "INPUT" 1 jumpRule] from by simp, List.getLast?_concat]
      · rw [herr] at h
        injection h with h2
        injection h2 with hec hest
        subst hec; subst hest
        refine ⟨Or.inr (Or.inr rfl), ?_⟩
        rw [hiss, show (st1.issued ++ (CRITICAL_LOCAL_RANGES ++ ranges).map
            (fun r => Cmd.appendRule CHAIN_NAME (acceptRule r))) ++
            [Cmd.deleteRule "INPUT" jumpRule, Cmd.deleteRule "INPUT" dropRule,
             Cmd.insertRule "INPUT" 1 jumpRule, Cmd.appendRule "INPUT" dropRule]
          = ((st1.issued ++ (CRITICAL_LOCAL_RANGES ++ ranges).map
            (fun r => Cmd.appendRule CHAIN_NAME (acceptRule r))) ++
            [Cmd.deleteRule "INPUT" jumpRule, Cmd.deleteRule "INPUT" dropRule,
             Cmd.insertRule "INPUT" 1 jumpRule]) ++
            [Cmd.appendRule "INPUT" dropRule] from by simp, List.getLast?_concat]

/-- A backend on which every command succeeds without changing state. -/
def behAllOk : Backend := fun _ s => (true, s)

/-- Concrete instance of the completion half of install_failure_modes. -/
theorem install_failure_modes_witness :
    ∃ st', install behAllOk [] ⟨⟨none, []⟩, []⟩ = .ok st' :=
  (install_failure_modes behAllOk [] ⟨⟨none, []⟩, []⟩).1
    (fun _ => rfl) (fun _ => rfl) (fun _ => rfl)

end IPT

namespace IPT

/-! ## Claim C8: mandatory ranges are appended first, then the country
ranges, each in its given order -/

/-- C8: whatever the backend does, the populate step appends the six
mandatory local/private ranges first (in their given order) and then
every country range in its given order; over the spec backend, starting
from a freshly created empty chain, the chain afterwards holds exactly
the mandatory ACCEPT rules followed by the country ACCEPT rules. -/
theorem add_whitelist_rules_mandatory_first :
    (∀ (beh : Backend) (ranges : List String) (st : ExecSt),
      ∃ fw', add_whitelist_rules beh ranges st =
        .ok ⟨fw', (st.issued
          ++ CRITICAL_LOCAL_RANGES.map (fun r => Cmd.appendRule CHAIN_NAME (acceptRule r)))
          ++ ranges.map (fun r => Cmd.appendRule CHAIN_NAME (acceptRule r))⟩) ∧
    (∀ (ranges : List String) (st : ExecSt), st.fw.chain = some [] →
      ∃ st', add_whitelist_rules specBackend ranges st = .ok st' ∧
        st'.fw.chain = some (CRITICAL_LOCAL_RANGES.map acceptRule ++ ranges.map acceptRule) ∧
        st'.fw.input = st.fw.input) := by
  constructor
  · intro beh ranges st
    obtain ⟨fw', h⟩ := add_any beh ranges st
    rw [List.map_append, ← List.append_assoc] at h
    exact ⟨fw', h⟩
  · intro ranges st hch
    obtain ⟨⟨ch, inp⟩, iss⟩ := st
    dsimp only at hch
    subst hch
    have h := add_spec ranges [] inp iss
    rw [List.nil_append, List.map_append] at h
    exact ⟨_, h, rfl, rfl⟩

/-- Concrete instance of the chain-content half of
add_whitelist_rules_mandatory_first. -/
theorem add_whitelist_rules_mandatory_first_witness :
    ∃ st', add_whitelist_rules specBackend ["1.0.0.0/8"] ⟨⟨some [], [jumpRule]⟩, []⟩ = .ok st' ∧
      st'.fw.chain = some (CRITICAL_LOCAL_RANGES.map acceptRule ++ ["1.0.0.0/8"].map acceptRule) ∧
      st'.fw.input = (⟨⟨some [], [jumpRule]⟩, []⟩ : ExecSt).fw.input :=
  add_whitelist_rules_mandatory_first.2 ["1.0.0.0/8"] ⟨⟨some [], [jumpRule]⟩, []⟩ rfl

/-! ## Claim C10: whitelist appends are best-effort -/

/-- A backend that fails every append to the whitelist chain and
otherwise behaves like the spec backend. -/
def behNoAppend : Backend := fun c s =>
  match c with
  | .appendRule n r => if n = CHAIN_NAME then (false, s) else specBackend (.appendRule n r) s
  | c => specBackend c s

theorem create_spec_na (st : ExecSt) :
    ∃ t, create_whitelist_chain behNoAppend st = .ok ⟨⟨some [], st.fw.input⟩, t⟩ := by
  obtain ⟨⟨ch, inp⟩, iss⟩ := st
  cases ch with
  | none => exact ⟨_, rfl⟩
  | some rs => exact ⟨_, rfl⟩

theorem add_fold_na (l : List String) :
    ∀ st : ExecSt,
      l.foldlM (fun st r => run_iptables behNoAppend st (.appendRule CHAIN_NAME (acceptRule r)) false) st =
        .ok ⟨st.fw, st.issued ++ l.map (fun r => Cmd.appendRule CHAIN_NAME (acceptRule r))⟩ := by
  induction l with
  | nil => intro st; simp
  | cons a l ih =>
    intro st
    rw [List.foldlM_cons, run_false]
    have hb : behNoAppend (Cmd.appendRule CHAIN_NAME (acceptRule a)) st.fw = (false, st.fw) := rfl
    rw [hb, exbind_ok, ih]
    simp

theorem add_na (ranges : List String) (st : ExecSt) :
    add_whitelist_rules behNoAppend ranges st =
      .ok ⟨st.fw, st.issued ++ (CRITICAL_LOCAL_RANGES ++ ranges).map
        (fun r => Cmd.appendRule CHAIN_NAME (acceptRule r))⟩ := by
  unfold add_whitelist_rules
  rw [add_fold_na, exbind_ok, add_fold_na]
  simp

theorem apply_spec_na (st : ExecSt) :
    apply_firewall_rules behNoAppend st =
      .ok ⟨⟨st.fw.chain, jumpRule :: ((st.fw.input.erase jumpRule).erase dropRule) ++ [dropRule]⟩,
           st.issued ++ [Cmd.deleteRule "INPUT" jumpRule, Cmd.deleteRule "INPUT" dropRule,
             Cmd.insertRule "INPUT" 1 jumpRule, Cmd.appendRule "INPUT" dropRule]⟩ := by
  have hd : ∀ (s : ExecSt) (r : Rule), run_iptables behNoAppend s (.deleteRule "INPUT" r) false =
      .ok ⟨⟨s.fw.chain, s.fw.input.erase r⟩, s.issued ++ [Cmd.deleteRule "INPUT" r]⟩ := by
    intro s r
    rw [run_false]
    by_cases h : r ∈ s.fw.input
    · simp [behNoAppend, specBackend, h]
    · simp [behNoAppend, specBackend, h, List.erase_of_not_mem h]
  unfold apply_firewall_rules
  rw [hd, exbind_ok, hd, exbind_ok, run_true]
  have hins : (behNoAppend (.insertRule "INPUT" 1 jumpRule)
      ⟨st.fw.chain, (st.fw.input.erase jumpRule).erase dropRule⟩) =
      (true, ⟨st.fw.chain, jumpRule :: ((st.fw.input.erase jumpRule).erase dropRule)⟩) := by
    simp [behNoAppend, specBackend, insertAt]
  rw [hins]
  simp only [if_pos]
  rw [exbind_ok, run_true]
  have happ : (behNoAppend (.appendRule "INPUT" dropRule)
      ⟨st.fw.chain, jumpRule :: ((st.fw.input.erase jumpRule).erase dropRule)⟩) =
      (true, ⟨st.fw.chain, jumpRule :: ((st.fw.input.erase jumpRule).erase dropRule) ++ [dropRule]⟩) := by
    simp [behNoAppend, specBackend, CHAIN_NAME]
  rw [happ]
  simp

/-- C10: the populate step returns normally over every backend, however
the appends fare (no append failure is surfaced or aborts); in
particular, over a backend failing every whitelist append, install
still runs the link step to completion and reports success while the
whitelist chain is left empty. -/
theorem add_whitelist_rules_ignore_failures :
    (∀ (beh : Backend) (ranges : List String) (st : ExecSt),
      ∃ st', add_whitelist_rules beh ranges st = .ok st') ∧
    (∀ (ranges : List String) (st : ExecSt),
      ∃ st', install behNoAppend ranges st = .ok st' ∧ st'.fw.chain = some []) := by
  constructor
  · intro beh ranges st
    obtain ⟨fw', h⟩ := add_any beh ranges st
    exact ⟨_, h⟩
  · intro ranges st
    obtain ⟨t, hc⟩ := create_spec_na st
    unfold install
    rw [hc, exbind_ok, add_na, exbind_ok, apply_spec_na]
    exact ⟨_, rfl, rfl⟩

end IPT
